import Mathlib

/-!
# Verification of the moontrade backtest engine (src/app.py)

Shallow embedding of the core of `src/app.py`:

* the Time Series Store (`build`: `pd.concat` of all sources followed by
  `sort_index` on the `Date` column),
* entry validation (`dt in df.index`),
* the Backtest Simulator (the `for entry_date in entry_dates` loop with the
  forward TP/SL scan `for date, row in forward_data.iterrows(): ... else: ...`),
* the aggregation (`trades_df["PnL %"].sum()` and
  `(trades_df["PnL %"] > 0).mean() * 100`).

Timestamps are modelled as `Nat` (the code's `pd.Timestamp` values are totally
ordered; only ordering and equality matter to the core).  Prices and volumes
are modelled as `ℚ`.
-/

/-- One OHLCV candle, as a row of the dataframe `df` built in `src/app.py`
(columns `Open, High, Low, Close, Volume` indexed by `Date`). -/
structure Bar where
  timestamp : Nat
  open_ : ℚ
  high : ℚ
  low : ℚ
  close : ℚ
  volume : ℚ
  deriving Repr, DecidableEq

/-- Exit parameters: `tp_pct` and `sl_pct`, the two slider values. -/
structure ExitParams where
  tp_pct : ℚ
  sl_pct : ℚ
  deriving Repr, DecidableEq

/-- The three values the `result` variable can take in the loop:
`"TP"`, `"SL"`, `"Open"`. -/
inductive Outcome where
  | TakeProfit
  | StopLoss
  | StillOpen
  deriving Repr, DecidableEq

/-- One row of the `trades` list built by the backtest loop. -/
structure Trade where
  entryTimestamp : Nat
  entryPrice : ℚ
  exitTimestamp : Nat
  exitPrice : ℚ
  result : Outcome
  pnlPct : ℚ
  deriving Repr, DecidableEq

/-- Insert a bar into a timestamp-sorted list, keeping duplicates
(`sort_index` keeps every row; ties stay adjacent). -/
def insertByTime (b : Bar) : List Bar → List Bar
  | [] => [b]
  | c :: cs => if b.timestamp ≤ c.timestamp then b :: c :: cs
               else c :: insertByTime b cs

/-- Sort a list of bars ascending by timestamp (the effect of
`df.sort_index(inplace=True)`).  Duplicate timestamps are all kept. -/
def sortByTime : List Bar → List Bar
  | [] => []
  | b :: bs => insertByTime b (sortByTime bs)

/-- `build`: `df = pd.concat(df_list); df.set_index("Date"); df.sort_index()`.
Each source is the already-normalized row list of one CSV file; the result is
the concatenation of all sources sorted ascending by timestamp.  No
deduplication is performed anywhere in `src/app.py`. -/
def build (sources : List (List Bar)) : List Bar :=
  sortByTime sources.flatten

/-- `priceAt`: the lookup `df.loc[entry_date]` in the scalar case — the
(first) bar whose timestamp equals `t`, if any.  Also models the membership
test `dt in df.index`.  When the index holds `t` more than once pandas
returns a multi-row Series instead of one row; that case is modelled
separately by `matchesAt` and the error-carrying simulator below. -/
def priceAt (df : List Bar) (t : Nat) : Option Bar :=
  df.find? (fun b => b.timestamp == t)

/-- `forwardSlice`: `df.loc[entry_date:]` — all bars with timestamp `≥ t`
(on the sorted dataframe this is exactly the tail slice pandas returns). -/
def forwardSlice (df : List Bar) (t : Nat) : List Bar :=
  df.filter (fun b => t ≤ b.timestamp)

/-- Take-profit threshold: `entry_price * (1 + tp_pct / 100)`. -/
def tpPrice (entryPrice : ℚ) (p : ExitParams) : ℚ :=
  entryPrice * (1 + p.tp_pct / 100)

/-- Stop-loss threshold: `entry_price * (1 - sl_pct / 100)`. -/
def slPrice (entryPrice : ℚ) (p : ExitParams) : ℚ :=
  entryPrice * (1 - p.sl_pct / 100)

/-- The forward scan `for date, row in forward_data.iterrows()`: the first bar
with `row["High"] >= tp` yields a TakeProfit exit at price `tp`; otherwise the
first bar with `row["Low"] <= sl` yields a StopLoss exit at price `sl`
(TP is checked first on each bar, so TP wins a same-bar tie); `none` means the
loop ran to completion without `break`. -/
def scanExit (entryPrice : ℚ) (p : ExitParams) : List Bar → Option (Nat × ℚ × Outcome)
  | [] => none
  | b :: rest =>
    if b.high ≥ tpPrice entryPrice p then
      some (b.timestamp, tpPrice entryPrice p, Outcome.TakeProfit)
    else if b.low ≤ slPrice entryPrice p then
      some (b.timestamp, slPrice entryPrice p, Outcome.StopLoss)
    else
      scanExit entryPrice p rest

/-- Build one row of the `trades` list:
`PnL % = (exit_price - entry_price) / entry_price * 100`. -/
def mkTrade (t : Nat) (e : ℚ) (d : Nat) (x : ℚ) (r : Outcome) : Trade :=
  { entryTimestamp := t, entryPrice := e, exitTimestamp := d, exitPrice := x,
    result := r, pnlPct := (x - e) / e * 100 }

/-- Simulate one entry in the unique-index case: look up
`entry_price = df.loc[entry_date, "Close"]`, scan `df.loc[entry_date:]`; on
no break, fall through to the `else:` branch with
`exit_price = df.iloc[-1]["Close"]`, `exit_date = df.index[-1]`,
`result = "Open"`.  Returns `none` when the entry timestamp is absent (the
code never reaches the loop body for such an entry).  This model is exact
only when the entry timestamp occurs at most once in the series; the
`ValueError` the code raises on a duplicated entry timestamp is kept by
`simulateEntryE` below. -/
def simulateEntry (df : List Bar) (p : ExitParams) (t : Nat) : Option Trade :=
  match priceAt df t with
  | none => none
  | some ebar =>
    match scanExit ebar.close p (forwardSlice df t) with
    | some (d, x, r) => some (mkTrade t ebar.close d x r)
    | none =>
      match df.getLast? with
      | some lastBar => some (mkTrade t ebar.close lastBar.timestamp lastBar.close Outcome.StillOpen)
      | none => none

/-- Entry validation: keep, in input order, the parsed timestamps that satisfy
`dt in df.index`. -/
def validEntries (df : List Bar) (ts : List Nat) : List Nat :=
  ts.filter (fun t => (priceAt df t).isSome)

/-- The whole backtest run: validate the entry list, then simulate each
surviving entry in order, appending one trade per entry to the ledger. -/
def run (df : List Bar) (ts : List Nat) (p : ExitParams) : List Trade :=
  (validEntries df ts).filterMap (simulateEntry df p)

/-- `trades_df["PnL %"].sum()`. -/
def totalReturnPct (ledger : List Trade) : ℚ :=
  (ledger.map Trade.pnlPct).sum

/-- pandas `.mean()` of a column: sum divided by length. -/
def colMean (xs : List ℚ) : ℚ :=
  xs.sum / xs.length

/-- `(trades_df["PnL %"] > 0).mean() * 100`: the boolean column is the 0/1
indicator of a winning trade. -/
def winRatePct (ledger : List Trade) : ℚ :=
  colMean (ledger.map (fun tr => if tr.pnlPct > 0 then (1 : ℚ) else 0)) * 100

/-- State threaded through the backtest loop: the dataframe the loop reads and
the `trades` accumulator it appends to. -/
structure SimState where
  df : List Bar
  trades : List Trade
  deriving Repr, DecidableEq

/-- One iteration of `for entry_date in entry_dates`: reads `s.df`, appends at
most one trade, and leaves the dataframe untouched. -/
def stepEntry (p : ExitParams) (s : SimState) (t : Nat) : SimState :=
  { df := s.df
    trades := s.trades ++ (match simulateEntry s.df p t with
                           | some tr => [tr]
                           | none => []) }

/-- The backtest loop as explicit state passing: fold `stepEntry` over the
validated entry list, starting from the built dataframe and an empty ledger. -/
def runLoop (df : List Bar) (ts : List Nat) (p : ExitParams) : SimState :=
  (validEntries df ts).foldl (stepEntry p) ⟨df, []⟩

/-- The rows selected by the label lookup `df.loc[t]`: every bar whose
timestamp equals `t`.  pandas returns a scalar when exactly one row matches
and a multi-row Series when the index is duplicated at `t`. -/
def matchesAt (df : List Bar) (t : Nat) : List Bar :=
  df.filter (fun b => b.timestamp == t)

/-- One iteration of the outer backtest loop with the duplicated-index error
path kept.  A not-found entry never reaches the loop body (skip).  A present
entry whose timestamp is unique behaves exactly as `simulateEntry`.  When the
timestamp is duplicated, `entry_price = df.loc[entry_date, "Close"]` is a
multi-row Series, so the first scan comparison
`row["High"] >= entry_price * (1 + tp_pct / 100)` compares against a Series
and the `if` raises `ValueError` — modelled as `Except.error ()`.  (The
forward slice is non-empty for a present entry, so that comparison is always
reached.) -/
def simulateEntryE (df : List Bar) (p : ExitParams) (t : Nat) :
    Except Unit (Option Trade) :=
  match matchesAt df t with
  | [] => Except.ok none
  | [ebar] =>
    match scanExit ebar.close p (forwardSlice df t) with
    | some (d, x, r) => Except.ok (some (mkTrade t ebar.close d x r))
    | none =>
      match df.getLast? with
      | some lastBar =>
        Except.ok (some (mkTrade t ebar.close lastBar.timestamp lastBar.close Outcome.StillOpen))
      | none => Except.ok none
  | _ => Except.error ()

/-- The backtest loop over a list of entries with the error path kept: the
`ValueError` is uncaught, so it aborts the whole run and no ledger is
produced at all. -/
def runFromE (df : List Bar) (p : ExitParams) : List Nat → Except Unit (List Trade)
  | [] => Except.ok []
  | t :: rest =>
    match simulateEntryE df p t with
    | Except.error e => Except.error e
    | Except.ok o =>
      match runFromE df p rest with
      | Except.error e => Except.error e
      | Except.ok l => Except.ok (o.toList ++ l)

/-- The whole backtest run with the duplicated-index error path kept:
validate the entries, then run the loop, aborting on the first error. -/
def runE (df : List Bar) (ts : List Nat) (p : ExitParams) : Except Unit (List Trade) :=
  runFromE df p (validEntries df ts)

/-! ## Helper lemmas about the embedded operations -/

theorem mem_of_getLast_opt (l : List Bar) (b : Bar) (h : l.getLast? = some b) : b ∈ l := by
  induction l with
  | nil => simp at h
  | cons c cs ih =>
    cases cs with
    | nil => simp only [List.getLast?_singleton, Option.some.injEq] at h; simp [h]
    | cons d ds =>
      rw [List.getLast?_cons_cons] at h
      exact List.mem_cons_of_mem c (ih h)

theorem scanExit_append_of_no_trigger (e : ℚ) (p : ExitParams) (pre l : List Bar)
    (h : ∀ x ∈ pre, ¬ x.high ≥ tpPrice e p ∧ ¬ x.low ≤ slPrice e p) :
    scanExit e p (pre ++ l) = scanExit e p l := by
  induction pre with
  | nil => rfl
  | cons c cs ih =>
    have hc := h c (List.mem_cons_self c cs)
    rw [List.cons_append, scanExit, if_neg hc.1, if_neg hc.2]
    exact ih (fun x hx => h x (List.mem_cons_of_mem c hx))

theorem scanExit_eq_none_iff (e : ℚ) (p : ExitParams) (l : List Bar) :
    scanExit e p l = none ↔ ∀ b ∈ l, ¬ b.high ≥ tpPrice e p ∧ ¬ b.low ≤ slPrice e p := by
  induction l with
  | nil => simp [scanExit]
  | cons c cs ih =>
    by_cases h1 : c.high ≥ tpPrice e p
    · simp [scanExit, h1]
    · by_cases h2 : c.low ≤ slPrice e p
      · simp [scanExit, h1, h2]
      · rw [scanExit, if_neg h1, if_neg h2, ih]
        constructor
        · intro hall b hb
          rcases List.mem_cons.mp hb with rfl | hbb
          · exact ⟨h1, h2⟩
          · exact hall b hbb
        · intro hall b hb
          exact hall b (List.mem_cons_of_mem c hb)

theorem scanExit_some_cases (e : ℚ) (p : ExitParams) (l : List Bar) (d : Nat) (x : ℚ)
    (r : Outcome) (h : scanExit e p l = some (d, x, r)) :
    ∃ b ∈ l, b.timestamp = d ∧
      ((r = Outcome.TakeProfit ∧ x = tpPrice e p) ∨
       (r = Outcome.StopLoss ∧ x = slPrice e p)) := by
  induction l with
  | nil => simp [scanExit] at h
  | cons c cs ih =>
    rw [scanExit] at h
    by_cases h1 : c.high ≥ tpPrice e p
    · rw [if_pos h1] at h
      obtain ⟨rfl, rfl, rfl⟩ : c.timestamp = d ∧ tpPrice e p = x ∧ Outcome.TakeProfit = r := by
        simpa using h
      exact ⟨c, List.mem_cons_self c cs, rfl, Or.inl ⟨rfl, rfl⟩⟩
    · rw [if_neg h1] at h
      by_cases h2 : c.low ≤ slPrice e p
      · rw [if_pos h2] at h
        obtain ⟨rfl, rfl, rfl⟩ : c.timestamp = d ∧ slPrice e p = x ∧ Outcome.StopLoss = r := by
          simpa using h
        exact ⟨c, List.mem_cons_self c cs, rfl, Or.inr ⟨rfl, rfl⟩⟩
      · rw [if_neg h2] at h
        obtain ⟨b, hb, hrest⟩ := ih h
        exact ⟨b, List.mem_cons_of_mem c hb, hrest⟩

theorem priceAt_mem (df : List Bar) (t : Nat) (b : Bar) (h : priceAt df t = some b) :
    b ∈ df :=
  List.mem_of_find?_eq_some h

theorem priceAt_timestamp (df : List Bar) (t : Nat) (b : Bar) (h : priceAt df t = some b) :
    b.timestamp = t := by
  have := List.find?_some h
  simpa using this

theorem priceAt_ne_nil (df : List Bar) (t : Nat) (b : Bar) (h : priceAt df t = some b) :
    df ≠ [] := by
  rintro rfl
  simp [priceAt] at h

theorem forwardSlice_eq_cons (df : List Bar) (t : Nat) (b : Bar)
    (hsort : df.Pairwise (fun a c => a.timestamp < c.timestamp))
    (h : priceAt df t = some b) :
    ∃ rest, forwardSlice df t = b :: rest := by
  induction df with
  | nil => simp [priceAt] at h
  | cons c cs ih =>
    rw [priceAt, List.find?_cons] at h
    by_cases hct : (c.timestamp == t) = true
    · simp only [hct] at h
      obtain rfl : c = b := by simpa using h
      have hceq : c.timestamp = t := by simpa using hct
      have hle : t ≤ c.timestamp := le_of_eq hceq.symm
      exact ⟨cs.filter (fun x => t ≤ x.timestamp), by
        simp [forwardSlice, List.filter_cons, hle]⟩
    · rw [Bool.not_eq_true] at hct
      simp only [hct] at h
      rw [show List.find? (fun b => b.timestamp == t) cs = priceAt cs t from rfl] at h
      have hbcs : b ∈ cs := List.mem_of_find?_eq_some h
      have hbt : b.timestamp = t := by simpa using List.find?_some h
      have hlt : c.timestamp < t := hbt ▸ (List.pairwise_cons.mp hsort).1 b hbcs
      have hnle : ¬ t ≤ c.timestamp := by omega
      obtain ⟨rest, hrest⟩ := ih (List.pairwise_cons.mp hsort).2 h
      exact ⟨rest, by
        rw [forwardSlice, List.filter_cons]
        rw [forwardSlice] at hrest
        simpa [hnle] using hrest⟩

theorem timestamp_le_of_getLast (df : List Bar) (lb b : Bar)
    (hsort : df.Pairwise (fun a c => a.timestamp ≤ c.timestamp))
    (hlast : df.getLast? = some lb) (hb : b ∈ df) :
    b.timestamp ≤ lb.timestamp := by
  induction df with
  | nil => simp at hb
  | cons c cs ih =>
    cases cs with
    | nil =>
      have hcl : c = lb := by simpa using hlast
      have hbc : b = c := by simpa using hb
      rw [hbc, hcl]
    | cons d ds =>
      rw [List.getLast?_cons_cons] at hlast
      rcases List.mem_cons.mp hb with rfl | hbb
      · have hlbmem : lb ∈ d :: ds := mem_of_getLast_opt _ _ hlast
        exact (List.pairwise_cons.mp hsort).1 lb hlbmem
      · exact ih (List.pairwise_cons.mp hsort).2 hlast hbb

theorem pnl_of_tpPrice (e : ℚ) (p : ExitParams) (he : e ≠ 0) :
    (tpPrice e p - e) / e * 100 = p.tp_pct := by
  unfold tpPrice; field_simp; ring

theorem pnl_of_slPrice (e : ℚ) (p : ExitParams) (he : e ≠ 0) :
    (slPrice e p - e) / e * 100 = -p.sl_pct := by
  unfold slPrice; field_simp; ring

theorem simulateEntry_spec (df : List Bar) (p : ExitParams) (t : Nat) (tr : Trade)
    (h : simulateEntry df p t = some tr) :
    ∃ ebar, priceAt df t = some ebar ∧ tr.entryTimestamp = t ∧ tr.entryPrice = ebar.close ∧
      tr.pnlPct = (tr.exitPrice - tr.entryPrice) / tr.entryPrice * 100 ∧
      ((tr.result = Outcome.TakeProfit ∧ tr.exitPrice = tpPrice ebar.close p ∧
          ∃ b ∈ forwardSlice df t, b.timestamp = tr.exitTimestamp) ∨
       (tr.result = Outcome.StopLoss ∧ tr.exitPrice = slPrice ebar.close p ∧
          ∃ b ∈ forwardSlice df t, b.timestamp = tr.exitTimestamp) ∨
       (tr.result = Outcome.StillOpen ∧ ∃ lb, df.getLast? = some lb ∧
          tr.exitPrice = lb.close ∧ tr.exitTimestamp = lb.timestamp)) := by
  cases hfind : priceAt df t with
  | none => simp [simulateEntry, hfind] at h
  | some ebar =>
    refine ⟨ebar, rfl, ?_⟩
    cases hscan : scanExit ebar.close p (forwardSlice df t) with
    | some v =>
      obtain ⟨d, x, r⟩ := v
      obtain rfl : mkTrade t ebar.close d x r = tr := by
        have h2 := h
        simp only [simulateEntry, hfind, hscan] at h2
        simpa using h2
      obtain ⟨b, hbmem, hbts, hcase⟩ := scanExit_some_cases _ _ _ _ _ _ hscan
      refine ⟨rfl, rfl, rfl, ?_⟩
      rcases hcase with ⟨rfl, rfl⟩ | ⟨rfl, rfl⟩
      · exact Or.inl ⟨rfl, rfl, b, hbmem, hbts⟩
      · exact Or.inr (Or.inl ⟨rfl, rfl, b, hbmem, hbts⟩)
    | none =>
      cases hlast : df.getLast? with
      | none => simp [simulateEntry, hfind, hscan, hlast] at h
      | some lb =>
        obtain rfl : mkTrade t ebar.close lb.timestamp lb.close Outcome.StillOpen = tr := by
          have h2 := h
          simp only [simulateEntry, hfind, hscan, hlast] at h2
          simpa using h2
        exact ⟨rfl, rfl, rfl, Or.inr (Or.inr ⟨rfl, lb, rfl, rfl, rfl⟩)⟩

theorem mem_run_iff (df : List Bar) (ts : List Nat) (p : ExitParams) (tr : Trade) :
    tr ∈ run df ts p ↔ ∃ t ∈ validEntries df ts, simulateEntry df p t = some tr := by
  simp [run, List.mem_filterMap]

theorem simulateEntry_of_present (df : List Bar) (p : ExitParams) (t : Nat) (ebar : Bar)
    (h : priceAt df t = some ebar) :
    ∃ tr, simulateEntry df p t = some tr ∧ tr.entryTimestamp = t := by
  cases hscan : scanExit ebar.close p (forwardSlice df t) with
  | some v =>
    obtain ⟨d, x, r⟩ := v
    exact ⟨mkTrade t ebar.close d x r, by simp [simulateEntry, h, hscan], rfl⟩
  | none =>
    have hne : df ≠ [] := priceAt_ne_nil df t ebar h
    obtain ⟨lb, hlb⟩ := Option.isSome_iff_exists.mp (List.getLast?_isSome.mpr hne)
    exact ⟨mkTrade t ebar.close lb.timestamp lb.close Outcome.StillOpen,
      by simp [simulateEntry, h, hscan, hlb], rfl⟩

/-! ## Concrete series used by the witnesses -/

/-- Bar `t1` of the spec's end-to-end scenario series. -/
def scenBar1 : Bar := ⟨1, 100, 105, 95, 100, 0⟩

/-- Bar `t2` of the spec's end-to-end scenario series. -/
def scenBar2 : Bar := ⟨2, 100, 112, 99, 110, 0⟩

/-- Bar `t3` of the spec's end-to-end scenario series. -/
def scenBar3 : Bar := ⟨3, 110, 111, 108, 109, 0⟩

/-- The spec's 3-bar end-to-end scenario series. -/
def scenSeries : List Bar := [scenBar1, scenBar2, scenBar3]

/-- First bar of a tie-break example: triggers neither threshold for
`tp_pct = sl_pct = 10` at entry price 100. -/
def tieBar1 : Bar := ⟨1, 100, 105, 95, 100, 0⟩

/-- Second bar of the tie-break example: `high = 110 ≥ 110` and
`low = 90 ≤ 90` hold simultaneously. -/
def tieBar2 : Bar := ⟨2, 100, 110, 90, 105, 0⟩

/-- Two-bar series on which both exit conditions fire on the same bar. -/
def tieSeries : List Bar := [tieBar1, tieBar2]

/-! ## Claim theorems -/

/-- Claim C1: for every entry whose forward scan reaches a bar on which both
exit conditions hold simultaneously (`high ≥ tpPrice` and `low ≤ slPrice`),
with no earlier bar of the scan triggering either condition, the emitted trade
has outcome TakeProfit, exit price `tpPrice`, and exit timestamp equal to that
bar's timestamp. -/
theorem C1_tie_break_take_profit (df : List Bar) (p : ExitParams) (t : Nat) (ebar b : Bar)
    (pre post : List Bar)
    (hfind : priceAt df t = some ebar)
    (hslice : forwardSlice df t = pre ++ b :: post)
    (hpre : ∀ x ∈ pre, ¬ x.high ≥ tpPrice ebar.close p ∧ ¬ x.low ≤ slPrice ebar.close p)
    (htp : b.high ≥ tpPrice ebar.close p)
    (hsl : b.low ≤ slPrice ebar.close p) :
    ∃ tr, simulateEntry df p t = some tr ∧ tr.result = Outcome.TakeProfit ∧
      tr.exitPrice = tpPrice ebar.close p ∧ tr.exitTimestamp = b.timestamp := by
  have hscan : scanExit ebar.close p (forwardSlice df t) =
      some (b.timestamp, tpPrice ebar.close p, Outcome.TakeProfit) := by
    rw [hslice, scanExit_append_of_no_trigger _ _ _ _ hpre, scanExit, if_pos htp]
  exact ⟨mkTrade t ebar.close b.timestamp (tpPrice ebar.close p) Outcome.TakeProfit,
    by simp [simulateEntry, hfind, hscan], rfl, rfl, rfl⟩

/-- Witness for C1 at the concrete tie series: with `tp_pct = sl_pct = 10` the
second bar satisfies both `high = 110 ≥ 110` and `low = 90 ≤ 90`, the first
bar triggers neither, and the trade exits TakeProfit at price 110 on bar 2. -/
theorem C1_tie_break_take_profit_witness :
    priceAt tieSeries 1 = some tieBar1 ∧
    forwardSlice tieSeries 1 = [tieBar1] ++ tieBar2 :: [] ∧
    (∀ x ∈ [tieBar1], ¬ x.high ≥ tpPrice tieBar1.close ⟨10, 10⟩ ∧
      ¬ x.low ≤ slPrice tieBar1.close ⟨10, 10⟩) ∧
    tieBar2.high ≥ tpPrice tieBar1.close ⟨10, 10⟩ ∧
    tieBar2.low ≤ slPrice tieBar1.close ⟨10, 10⟩ ∧
    (∃ tr, simulateEntry tieSeries ⟨10, 10⟩ 1 = some tr ∧
      tr.result = Outcome.TakeProfit ∧
      tr.exitPrice = tpPrice tieBar1.close ⟨10, 10⟩ ∧
      tr.exitTimestamp = tieBar2.timestamp) := by
  have h1 : priceAt tieSeries 1 = some tieBar1 := rfl
  have h2 : forwardSlice tieSeries 1 = [tieBar1] ++ tieBar2 :: [] := rfl
  have h3 : ∀ x ∈ [tieBar1], ¬ x.high ≥ tpPrice tieBar1.close ⟨10, 10⟩ ∧
      ¬ x.low ≤ slPrice tieBar1.close ⟨10, 10⟩ := by
    intro x hx
    rw [List.mem_singleton] at hx
    subst hx
    norm_num [tpPrice, slPrice, tieBar1]
  have h4 : tieBar2.high ≥ tpPrice tieBar1.close ⟨10, 10⟩ := by
    norm_num [tpPrice, tieBar1, tieBar2]
  have h5 : tieBar2.low ≤ slPrice tieBar1.close ⟨10, 10⟩ := by
    norm_num [slPrice, tieBar1, tieBar2]
  exact ⟨h1, h2, h3, h4, h5,
    C1_tie_break_take_profit tieSeries ⟨10, 10⟩ 1 tieBar1 tieBar2 [tieBar1] [] h1 h2 h3 h4 h5⟩

/-- Claim C2: the forward scan includes the entry bar itself.  On a series
with strictly increasing timestamps, if the bar at the entry timestamp already
satisfies `low ≤ slPrice` without satisfying `high ≥ tpPrice`, the emitted
trade is a StopLoss on the entry bar: exit timestamp equals the entry
timestamp, exit price equals `slPrice`, and the PnL is exactly `-sl_pct`
(Scenario B instantiates this at the witness below). -/
theorem C2_entry_bar_stop_loss (df : List Bar) (p : ExitParams) (t : Nat) (ebar : Bar)
    (hsort : df.Pairwise (fun a c => a.timestamp < c.timestamp))
    (hfind : priceAt df t = some ebar)
    (hnotp : ¬ ebar.high ≥ tpPrice ebar.close p)
    (hsl : ebar.low ≤ slPrice ebar.close p)
    (hne : ebar.close ≠ 0) :
    ∃ tr, simulateEntry df p t = some tr ∧ tr.result = Outcome.StopLoss ∧
      tr.exitTimestamp = t ∧ tr.exitPrice = slPrice ebar.close p ∧
      tr.pnlPct = -p.sl_pct := by
  obtain ⟨rest, hslice⟩ := forwardSlice_eq_cons df t ebar hsort hfind
  have hscan : scanExit ebar.close p (forwardSlice df t) =
      some (ebar.timestamp, slPrice ebar.close p, Outcome.StopLoss) := by
    rw [hslice, scanExit, if_neg hnotp, if_pos hsl]
  have hts : ebar.timestamp = t := priceAt_timestamp df t ebar hfind
  refine ⟨mkTrade t ebar.close ebar.timestamp (slPrice ebar.close p) Outcome.StopLoss,
    by simp [simulateEntry, hfind, hscan], rfl, hts, rfl, ?_⟩
  show (slPrice ebar.close p - ebar.close) / ebar.close * 100 = -p.sl_pct
  exact pnl_of_slPrice _ _ hne

/-- Witness for C2, the spec's Scenario B: 3-bar series, entry at `t1`,
`tp_pct = 50`, `sl_pct = 3`.  The entry bar itself has `low = 95 ≤ 97`, so the
trade is a StopLoss at `t1` with exit price `slPrice 100 = 97` and PnL `-3`. -/
theorem C2_entry_bar_stop_loss_witness :
    scenSeries.Pairwise (fun a c => a.timestamp < c.timestamp) ∧
    priceAt scenSeries 1 = some scenBar1 ∧
    (¬ scenBar1.high ≥ tpPrice scenBar1.close ⟨50, 3⟩) ∧
    scenBar1.low ≤ slPrice scenBar1.close ⟨50, 3⟩ ∧
    scenBar1.close ≠ 0 ∧
    slPrice scenBar1.close ⟨50, 3⟩ = 97 ∧
    -(ExitParams.mk 50 3).sl_pct = -3 ∧
    (∃ tr, simulateEntry scenSeries ⟨50, 3⟩ 1 = some tr ∧
      tr.result = Outcome.StopLoss ∧ tr.exitTimestamp = 1 ∧
      tr.exitPrice = slPrice scenBar1.close ⟨50, 3⟩ ∧
      tr.pnlPct = -(ExitParams.mk 50 3).sl_pct) := by
  have h1 : scenSeries.Pairwise (fun a c => a.timestamp < c.timestamp) := by
    norm_num [scenSeries, List.pairwise_cons, scenBar1, scenBar2, scenBar3]
  have h2 : priceAt scenSeries 1 = some scenBar1 := rfl
  have h3 : ¬ scenBar1.high ≥ tpPrice scenBar1.close ⟨50, 3⟩ := by
    norm_num [tpPrice, scenBar1]
  have h4 : scenBar1.low ≤ slPrice scenBar1.close ⟨50, 3⟩ := by
    norm_num [slPrice, scenBar1]
  have h5 : scenBar1.close ≠ 0 := by norm_num [scenBar1]
  refine ⟨h1, h2, h3, h4, h5, by norm_num [slPrice, scenBar1], by norm_num,
    C2_entry_bar_stop_loss scenSeries ⟨50, 3⟩ 1 scenBar1 h1 h2 h3 h4 h5⟩

/-- Claim C3: if no bar of the forward slice satisfies either exit condition,
the emitted trade is StillOpen with exit price the close of the last bar of
the series and exit timestamp the last bar's timestamp. -/
theorem C3_still_open_terminal (df : List Bar) (p : ExitParams) (t : Nat) (ebar lb : Bar)
    (hfind : priceAt df t = some ebar)
    (hlast : df.getLast? = some lb)
    (hnone : ∀ b ∈ forwardSlice df t,
      ¬ b.high ≥ tpPrice ebar.close p ∧ ¬ b.low ≤ slPrice ebar.close p) :
    ∃ tr, simulateEntry df p t = some tr ∧ tr.result = Outcome.StillOpen ∧
      tr.exitPrice = lb.close ∧ tr.exitTimestamp = lb.timestamp := by
  have hscan := (scanExit_eq_none_iff ebar.close p (forwardSlice df t)).mpr hnone
  exact ⟨mkTrade t ebar.close lb.timestamp lb.close Outcome.StillOpen,
    by simp [simulateEntry, hfind, hscan, hlast], rfl, rfl, rfl⟩

/-- Witness for C3, the spec's Scenario C shape: on the 3-bar scenario series
with `tp_pct = 50`, `sl_pct = 40` no bar crosses either threshold, so the
trade stays open and exits at the final close 109 on bar 3. -/
theorem C3_still_open_terminal_witness :
    priceAt scenSeries 1 = some scenBar1 ∧
    scenSeries.getLast? = some scenBar3 ∧
    (∀ b ∈ forwardSlice scenSeries 1,
      ¬ b.high ≥ tpPrice scenBar1.close ⟨50, 40⟩ ∧
      ¬ b.low ≤ slPrice scenBar1.close ⟨50, 40⟩) ∧
    (∃ tr, simulateEntry scenSeries ⟨50, 40⟩ 1 = some tr ∧
      tr.result = Outcome.StillOpen ∧ tr.exitPrice = scenBar3.close ∧
      tr.exitTimestamp = scenBar3.timestamp) := by
  have h1 : priceAt scenSeries 1 = some scenBar1 := rfl
  have h2 : scenSeries.getLast? = some scenBar3 := rfl
  have h3 : ∀ b ∈ forwardSlice scenSeries 1,
      ¬ b.high ≥ tpPrice scenBar1.close ⟨50, 40⟩ ∧
      ¬ b.low ≤ slPrice scenBar1.close ⟨50, 40⟩ := by
    intro b hb
    have hb3 : b = scenBar1 ∨ b = scenBar2 ∨ b = scenBar3 := by
      simpa [forwardSlice, scenSeries, List.filter_cons, scenBar1, scenBar2, scenBar3] using hb
    rcases hb3 with rfl | rfl | rfl <;>
      norm_num [tpPrice, slPrice, scenBar1, scenBar2, scenBar3]
  exact ⟨h1, h2, h3,
    C3_still_open_terminal scenSeries ⟨50, 40⟩ 1 scenBar1 scenBar3 h1 h2 h3⟩

theorem mem_insertByTime (b x : Bar) (l : List Bar) (h : x ∈ insertByTime b l) :
    x = b ∨ x ∈ l := by
  induction l with
  | nil => simpa [insertByTime] using h
  | cons c cs ih =>
    rw [insertByTime] at h
    by_cases hbc : b.timestamp ≤ c.timestamp
    · rw [if_pos hbc] at h
      rcases List.mem_cons.mp h with rfl | hrest
      · exact Or.inl rfl
      · exact Or.inr hrest
    · rw [if_neg hbc] at h
      rcases List.mem_cons.mp h with rfl | hrest
      · exact Or.inr (List.mem_cons_self _ _)
      · rcases ih hrest with rfl | hm
        · exact Or.inl rfl
        · exact Or.inr (List.mem_cons_of_mem _ hm)

theorem insertByTime_pairwise (b : Bar) (l : List Bar)
    (h : l.Pairwise (fun a c => a.timestamp ≤ c.timestamp)) :
    (insertByTime b l).Pairwise (fun a c => a.timestamp ≤ c.timestamp) := by
  induction l with
  | nil => simp [insertByTime]
  | cons c cs ih =>
    rw [insertByTime]
    by_cases hbc : b.timestamp ≤ c.timestamp
    · rw [if_pos hbc]
      refine List.pairwise_cons.mpr ⟨?_, h⟩
      intro x hx
      rcases List.mem_cons.mp hx with rfl | hxx
      · exact hbc
      · exact le_trans hbc ((List.pairwise_cons.mp h).1 x hxx)
    · rw [if_neg hbc]
      refine List.pairwise_cons.mpr ⟨?_, ih (List.pairwise_cons.mp h).2⟩
      intro x hx
      rcases mem_insertByTime b x cs hx with rfl | hxx
      · exact le_of_lt (lt_of_not_le hbc)
      · exact (List.pairwise_cons.mp h).1 x hxx

theorem insertByTime_length (b : Bar) (l : List Bar) :
    (insertByTime b l).length = l.length + 1 := by
  induction l with
  | nil => rfl
  | cons c cs ih =>
    rw [insertByTime]
    by_cases hbc : b.timestamp ≤ c.timestamp
    · rw [if_pos hbc]; rfl
    · rw [if_neg hbc]; simp [ih]

theorem sortByTime_pairwise (l : List Bar) :
    (sortByTime l).Pairwise (fun a c => a.timestamp ≤ c.timestamp) := by
  induction l with
  | nil => simp [sortByTime]
  | cons b bs ih => exact insertByTime_pairwise b (sortByTime bs) ih

theorem sortByTime_length (l : List Bar) : (sortByTime l).length = l.length := by
  induction l with
  | nil => rfl
  | cons b bs ih =>
    rw [sortByTime, insertByTime_length, ih]
    simp

/-- Two one-row sources carrying the same timestamp with different prices. -/
def dupSources : List (List Bar) := [[⟨1, 1, 1, 1, 1, 0⟩], [⟨1, 2, 2, 2, 2, 0⟩]]

/-- Counterexample to C4 as stated: merging two sources that share timestamp 1
yields a series whose timestamps are not strictly increasing — both rows are
kept, so the series has two bars at the same timestamp. -/
theorem C4_counterexample :
    ¬ (build dupSources).Pairwise (fun a c => a.timestamp < c.timestamp) := by
  intro h
  have h2 : build dupSources =
      [⟨1, 1, 1, 1, 1, 0⟩, ⟨1, 2, 2, 2, 2, 0⟩] := by
    simp [build, dupSources, sortByTime, insertByTime]
  rw [h2] at h
  have := (List.pairwise_cons.mp h).1 ⟨1, 2, 2, 2, 2, 0⟩ (List.mem_singleton.mpr rfl)
  exact absurd this (by norm_num)

/-- Amended claim C4: `build` always yields a series sorted ascending by
timestamp, and it keeps every merged row (the output length equals the total
input length), so duplicate timestamps survive as multiple bars instead of
being collapsed to one. -/
theorem C4_build_sorted_keeps_duplicates (sources : List (List Bar)) :
    (build sources).Pairwise (fun a c => a.timestamp ≤ c.timestamp) ∧
    (build sources).length = sources.flatten.length :=
  ⟨sortByTime_pairwise sources.flatten, sortByTime_length sources.flatten⟩

theorem find?_eq_filter_head (l : List Bar) (q : Bar → Bool) :
    l.find? q = (l.filter q).head? := by
  induction l with
  | nil => rfl
  | cons c cs ih =>
    rw [List.find?_cons, List.filter_cons]
    cases h : q c with
    | true => simp
    | false => rw [ih, if_neg (by simp)]

theorem priceAt_eq_matchesAt_head (df : List Bar) (t : Nat) :
    priceAt df t = (matchesAt df t).head? :=
  find?_eq_filter_head df _

theorem run_map_entryTimestamp (df : List Bar) (ts : List Nat) (p : ExitParams) :
    (run df ts p).map Trade.entryTimestamp = validEntries df ts := by
  have key : ∀ l : List Nat, (∀ t ∈ l, (priceAt df t).isSome = true) →
      (l.filterMap (simulateEntry df p)).map Trade.entryTimestamp = l := by
    intro l
    induction l with
    | nil => intro _; rfl
    | cons t l ih =>
      intro hall
      obtain ⟨ebar, hebar⟩ :=
        Option.isSome_iff_exists.mp (hall t (List.mem_cons_self t l))
      obtain ⟨tr, htr, hts⟩ := simulateEntry_of_present df p t ebar hebar
      simp only [List.filterMap_cons, htr, List.map_cons, hts]
      rw [ih (fun x hx => hall x (List.mem_cons_of_mem t hx))]
  exact key (validEntries df ts) (fun t ht => (List.mem_filter.mp ht).2)

theorem simulateEntryE_ok_of_unique (df : List Bar) (p : ExitParams) (t : Nat)
    (hdup : df.Pairwise (fun a c => a.timestamp ≠ c.timestamp)) :
    simulateEntryE df p t = Except.ok (simulateEntry df p t) := by
  have hhead := priceAt_eq_matchesAt_head df t
  cases hm : matchesAt df t with
  | nil =>
    have hP : priceAt df t = none := by rw [hhead, hm]; rfl
    simp [simulateEntryE, hm, simulateEntry, hP]
  | cons b1 bs =>
    cases bs with
    | nil =>
      have hP : priceAt df t = some b1 := by rw [hhead, hm]; rfl
      cases hscan : scanExit b1.close p (forwardSlice df t) with
      | some v =>
        obtain ⟨d, x, r⟩ := v
        simp [simulateEntryE, hm, simulateEntry, hP, hscan]
      | none =>
        cases hlast : df.getLast? with
        | some lb => simp [simulateEntryE, hm, simulateEntry, hP, hscan, hlast]
        | none => simp [simulateEntryE, hm, simulateEntry, hP, hscan, hlast]
    | cons b2 rest =>
      exfalso
      have hpair : (matchesAt df t).Pairwise (fun a c => a.timestamp ≠ c.timestamp) :=
        List.Pairwise.sublist (List.filter_sublist df) hdup
      rw [hm] at hpair
      have hne : b1.timestamp ≠ b2.timestamp :=
        (List.pairwise_cons.mp hpair).1 b2 (List.mem_cons_self _ _)
      have hb1 : b1 ∈ matchesAt df t := by rw [hm]; exact List.mem_cons_self _ _
      have hb2 : b2 ∈ matchesAt df t := by
        rw [hm]; exact List.mem_cons_of_mem _ (List.mem_cons_self _ _)
      have ht1 : b1.timestamp = t := by
        simpa using (List.mem_filter.mp hb1).2
      have ht2 : b2.timestamp = t := by
        simpa using (List.mem_filter.mp hb2).2
      exact hne (ht1.trans ht2.symm)

theorem runFromE_ok_of_unique (df : List Bar) (p : ExitParams) (l : List Nat)
    (hdup : df.Pairwise (fun a c => a.timestamp ≠ c.timestamp)) :
    runFromE df p l = Except.ok (l.filterMap (simulateEntry df p)) := by
  induction l with
  | nil => rfl
  | cons t rest ih =>
    rw [runFromE, simulateEntryE_ok_of_unique df p t hdup, ih, List.filterMap_cons]
    cases h : simulateEntry df p t with
    | none => simp [h]
    | some tr => simp [h]

/-- Counterexample to C5 as stated: the series `build dupSources` (reachable
per C4) holds timestamp 1 twice, so the entry 1 is present — it passes
`dt in df.index` — yet the loop body raises at the first scan comparison
instead of emitting a trade, and the whole run aborts producing no ledger. -/
theorem C5_counterexample :
    (priceAt (build dupSources) 1).isSome = true ∧
    simulateEntryE (build dupSources) ⟨10, 5⟩ 1 = Except.error () ∧
    runE (build dupSources) [1] ⟨10, 5⟩ = Except.error () :=
  ⟨rfl, rfl, rfl⟩

/-- Claim C5 (amended): provided every timestamp occurs at most once in the
series, entry timestamps absent from the series are skipped without error and
produce no trade, the simulator returns a skip on a not-found entry, the run
completes without raising, and the ledger carries exactly one trade per
present entry in input order — its entry timestamps are exactly the validated
input list.  (Without that proviso a present-but-duplicated entry timestamp
makes the loop raise `ValueError` and no ledger is produced, see the
counterexample.) -/
theorem C5_skip_missing_entries_unique (df : List Bar) (ts : List Nat) (p : ExitParams)
    (hdup : df.Pairwise (fun a c => a.timestamp ≠ c.timestamp)) :
    runE df ts p = Except.ok (run df ts p) ∧
    (run df ts p).map Trade.entryTimestamp = validEntries df ts ∧
    (∀ t, priceAt df t = none → simulateEntryE df p t = Except.ok none) := by
  refine ⟨runFromE_ok_of_unique df p _ hdup, run_map_entryTimestamp df ts p, ?_⟩
  intro t hnone
  have hm : matchesAt df t = [] := by
    have hhead := priceAt_eq_matchesAt_head df t
    rw [hnone] at hhead
    exact List.head?_eq_none_iff.mp hhead.symm
  simp [simulateEntryE, hm]

/-- Witness for C5: the scenario series has pairwise-distinct timestamps;
with input `[1, 7]`, timestamp 7 is absent, the run completes with a ledger
holding exactly the entry at 1, and simulating the missing entry 7 is a
skip. -/
theorem C5_skip_missing_entries_unique_witness :
    scenSeries.Pairwise (fun a c => a.timestamp ≠ c.timestamp) ∧
    runE scenSeries [1, 7] ⟨50, 40⟩ = Except.ok (run scenSeries [1, 7] ⟨50, 40⟩) ∧
    (run scenSeries [1, 7] ⟨50, 40⟩).map Trade.entryTimestamp =
      validEntries scenSeries [1, 7] ∧
    priceAt scenSeries 7 = none ∧
    simulateEntryE scenSeries ⟨50, 40⟩ 7 = Except.ok none := by
  have hdup : scenSeries.Pairwise (fun a c => a.timestamp ≠ c.timestamp) := by
    norm_num [scenSeries, List.pairwise_cons, scenBar1, scenBar2, scenBar3]
  obtain ⟨ha, hb, hc⟩ := C5_skip_missing_entries_unique scenSeries [1, 7] ⟨50, 40⟩ hdup
  exact ⟨hdup, ha, hb, rfl, hc 7 rfl⟩

theorem indicator_sum_eq_countP (ledger : List Trade) :
    (ledger.map (fun tr => if tr.pnlPct > 0 then (1 : ℚ) else 0)).sum =
      (ledger.countP (fun tr => decide (tr.pnlPct > 0)) : ℚ) := by
  induction ledger with
  | nil => simp
  | cons tr l ih =>
    rw [List.map_cons, List.sum_cons, ih, List.countP_cons]
    by_cases h : tr.pnlPct > 0
    · simp [h]
      ring
    · simp [h]

/-- Claim C6: for a non-empty ledger, `totalReturnPct` is the arithmetic sum
of the `pnlPct` column, and `winRatePct` equals 100 times the number of trades
with positive PnL divided by the number of trades. -/
theorem C6_summary_correct (ledger : List Trade) (h : ledger ≠ []) :
    totalReturnPct ledger = (ledger.map Trade.pnlPct).sum ∧
    winRatePct ledger =
      100 * (ledger.countP (fun tr => decide (tr.pnlPct > 0)) : ℚ) / ledger.length := by
  refine ⟨rfl, ?_⟩
  rw [winRatePct, colMean, indicator_sum_eq_countP, List.length_map]
  ring

/-- A TakeProfit trade row as the code would emit it (entry 100, exit 110). -/
def tradeTP : Trade := ⟨1, 100, 2, 110, Outcome.TakeProfit, 10⟩

/-- A StopLoss trade row as the code emits it in Scenario B. -/
def tradeSL : Trade := ⟨1, 100, 1, 97, Outcome.StopLoss, -3⟩

/-- Witness for C6 at the two-trade ledger `[tradeTP, tradeSL]`: total return
is the sum of the PnL column and the win rate is `100·1/2`. -/
theorem C6_summary_correct_witness :
    ([tradeTP, tradeSL] ≠ ([] : List Trade)) ∧
    (totalReturnPct [tradeTP, tradeSL] = ([tradeTP, tradeSL].map Trade.pnlPct).sum ∧
     winRatePct [tradeTP, tradeSL] =
       100 * ([tradeTP, tradeSL].countP (fun tr => decide (tr.pnlPct > 0)) : ℚ) /
         ([tradeTP, tradeSL] : List Trade).length) :=
  ⟨by simp, C6_summary_correct [tradeTP, tradeSL] (by simp)⟩

theorem pnl_pos_iff (e x : ℚ) (he : 0 < e) : 0 < (x - e) / e * 100 ↔ e < x := by
  rw [div_mul_eq_mul_div, lt_div_iff he]
  constructor <;> intro h <;> nlinarith

theorem pnl_neg_iff (e x : ℚ) (he : 0 < e) : (x - e) / e * 100 < 0 ↔ x < e := by
  rw [div_mul_eq_mul_div, div_lt_iff he]
  constructor <;> intro h <;> nlinarith

/-- The Scenario B run evaluates to the single StopLoss trade. -/
theorem run_scenB_eq : run scenSeries [1] ⟨50, 3⟩ = [tradeSL] := by
  norm_num [run, validEntries, priceAt, simulateEntry, scanExit, forwardSlice,
    tpPrice, slPrice, mkTrade, tradeSL, scenSeries, scenBar1, scenBar2, scenBar3,
    List.find?, List.filter, List.filterMap]

/-- Claim C7: the sign of `pnlPct` is consistent with the outcome.  On a
series of positive closes, a TakeProfit trade has positive PnL whenever
`tp_pct > 0`, a StopLoss trade has negative PnL whenever `sl_pct > 0`, and a
StillOpen trade's PnL sign matches the sign of `exitPrice − entryPrice`. -/
theorem C7_pnl_sign_consistent (df : List Bar) (ts : List Nat) (p : ExitParams) (tr : Trade)
    (hpos : ∀ b ∈ df, 0 < b.close)
    (htp : 0 < p.tp_pct) (hsl : 0 < p.sl_pct)
    (hmem : tr ∈ run df ts p) :
    (tr.result = Outcome.TakeProfit → 0 < tr.pnlPct) ∧
    (tr.result = Outcome.StopLoss → tr.pnlPct < 0) ∧
    (tr.result = Outcome.StillOpen →
      (0 < tr.pnlPct ↔ tr.entryPrice < tr.exitPrice) ∧
      (tr.pnlPct < 0 ↔ tr.exitPrice < tr.entryPrice)) := by
  obtain ⟨t, htmem, hsim⟩ := (mem_run_iff df ts p tr).mp hmem
  obtain ⟨ebar, hfind, hts, hent, hpnl, hcases⟩ := simulateEntry_spec df p t tr hsim
  have hec : 0 < ebar.close := hpos ebar (priceAt_mem df t ebar hfind)
  have hepos : 0 < tr.entryPrice := hent ▸ hec
  refine ⟨?_, ?_, ?_⟩
  · intro hres
    rcases hcases with ⟨_, hx, _⟩ | ⟨hr, _, _⟩ | ⟨hr, _⟩
    · rw [hpnl, hx, hent, pnl_of_tpPrice _ _ (ne_of_gt hec)]
      exact htp
    · simp [hres] at hr
    · simp [hres] at hr
  · intro hres
    rcases hcases with ⟨hr, _, _⟩ | ⟨_, hx, _⟩ | ⟨hr, _⟩
    · simp [hres] at hr
    · rw [hpnl, hx, hent, pnl_of_slPrice _ _ (ne_of_gt hec)]
      exact neg_lt_zero.mpr hsl
    · simp [hres] at hr
  · intro hres
    rcases hcases with ⟨hr, _, _⟩ | ⟨hr, _, _⟩ | ⟨_, _⟩
    · simp [hres] at hr
    · simp [hres] at hr
    · rw [hpnl]
      exact ⟨pnl_pos_iff _ _ hepos, pnl_neg_iff _ _ hepos⟩

/-- Witness for C7 at Scenario B: the StopLoss trade of the concrete run has
negative PnL, and the TakeProfit and StillOpen implications hold vacuously. -/
theorem C7_pnl_sign_consistent_witness :
    (∀ b ∈ scenSeries, 0 < b.close) ∧
    0 < (ExitParams.mk 50 3).tp_pct ∧
    0 < (ExitParams.mk 50 3).sl_pct ∧
    tradeSL ∈ run scenSeries [1] ⟨50, 3⟩ ∧
    ((tradeSL.result = Outcome.TakeProfit → 0 < tradeSL.pnlPct) ∧
     (tradeSL.result = Outcome.StopLoss → tradeSL.pnlPct < 0) ∧
     (tradeSL.result = Outcome.StillOpen →
       (0 < tradeSL.pnlPct ↔ tradeSL.entryPrice < tradeSL.exitPrice) ∧
       (tradeSL.pnlPct < 0 ↔ tradeSL.exitPrice < tradeSL.entryPrice))) := by
  have hpos : ∀ b ∈ scenSeries, 0 < b.close := by
    intro b hb
    rcases (by simpa [scenSeries] using hb : b = scenBar1 ∨ b = scenBar2 ∨ b = scenBar3)
      with rfl | rfl | rfl <;> norm_num [scenBar1, scenBar2, scenBar3]
  have htp : 0 < (ExitParams.mk 50 3).tp_pct := by norm_num
  have hsl : 0 < (ExitParams.mk 50 3).sl_pct := by norm_num
  have hmem : tradeSL ∈ run scenSeries [1] ⟨50, 3⟩ := by
    rw [run_scenB_eq]
    exact List.mem_singleton.mpr rfl
  exact ⟨hpos, htp, hsl, hmem,
    C7_pnl_sign_consistent scenSeries [1] ⟨50, 3⟩ tradeSL hpos htp hsl hmem⟩

theorem foldl_stepEntry_df (p : ExitParams) (l : List Nat) (s : SimState) :
    (l.foldl (stepEntry p) s).df = s.df := by
  induction l generalizing s with
  | nil => rfl
  | cons t l ih =>
    rw [List.foldl_cons, ih (stepEntry p s t)]
    rfl

theorem foldl_stepEntry_trades (p : ExitParams) (l : List Nat) (s : SimState) :
    (l.foldl (stepEntry p) s).trades = s.trades ++ l.filterMap (simulateEntry s.df p) := by
  induction l generalizing s with
  | nil => simp
  | cons t l ih =>
    rw [List.foldl_cons, ih (stepEntry p s t), List.filterMap_cons]
    cases h : simulateEntry s.df p t with
    | none => simp [stepEntry, h]
    | some tr => simp [stepEntry, h]

/-- Claim C8: the backtest loop, modelled with its state passed explicitly,
never changes the series it scans, and its final ledger is exactly the pure
function `run` of the inputs — hence any two executions on equal inputs
produce equal ledgers. -/
theorem C8_loop_pure_no_mutation (df : List Bar) (ts : List Nat) (p : ExitParams) :
    (runLoop df ts p).df = df ∧ (runLoop df ts p).trades = run df ts p := by
  constructor
  · exact foldl_stepEntry_df p (validEntries df ts) ⟨df, []⟩
  · rw [runLoop, foldl_stepEntry_trades]
    simp [run]

/-- Claim C9: the exit price is pinned to the threshold price rather than a
bar price, so in exact arithmetic a TakeProfit trade's PnL equals `tp_pct` and
a StopLoss trade's PnL equals `-sl_pct`, on any series of positive closes. -/
theorem C9_pnl_exact_at_threshold (df : List Bar) (ts : List Nat) (p : ExitParams) (tr : Trade)
    (hpos : ∀ b ∈ df, 0 < b.close)
    (hmem : tr ∈ run df ts p) :
    (tr.result = Outcome.TakeProfit → tr.pnlPct = p.tp_pct) ∧
    (tr.result = Outcome.StopLoss → tr.pnlPct = -p.sl_pct) := by
  obtain ⟨t, htmem, hsim⟩ := (mem_run_iff df ts p tr).mp hmem
  obtain ⟨ebar, hfind, hts, hent, hpnl, hcases⟩ := simulateEntry_spec df p t tr hsim
  have hec : 0 < ebar.close := hpos ebar (priceAt_mem df t ebar hfind)
  constructor
  · intro hres
    rcases hcases with ⟨_, hx, _⟩ | ⟨hr, _, _⟩ | ⟨hr, _⟩
    · rw [hpnl, hx, hent]
      exact pnl_of_tpPrice _ _ (ne_of_gt hec)
    · simp [hres] at hr
    · simp [hres] at hr
  · intro hres
    rcases hcases with ⟨hr, _, _⟩ | ⟨_, hx, _⟩ | ⟨hr, _⟩
    · simp [hres] at hr
    · rw [hpnl, hx, hent]
      exact pnl_of_slPrice _ _ (ne_of_gt hec)
    · simp [hres] at hr

/-- Witness for C9 at Scenario B: the emitted StopLoss trade has
`pnlPct = -3 = -sl_pct` exactly. -/
theorem C9_pnl_exact_at_threshold_witness :
    (∀ b ∈ scenSeries, 0 < b.close) ∧
    tradeSL ∈ run scenSeries [1] ⟨50, 3⟩ ∧
    ((tradeSL.result = Outcome.TakeProfit → tradeSL.pnlPct = (ExitParams.mk 50 3).tp_pct) ∧
     (tradeSL.result = Outcome.StopLoss → tradeSL.pnlPct = -(ExitParams.mk 50 3).sl_pct)) := by
  have hpos : ∀ b ∈ scenSeries, 0 < b.close := by
    intro b hb
    rcases (by simpa [scenSeries] using hb : b = scenBar1 ∨ b = scenBar2 ∨ b = scenBar3)
      with rfl | rfl | rfl <;> norm_num [scenBar1, scenBar2, scenBar3]
  have hmem : tradeSL ∈ run scenSeries [1] ⟨50, 3⟩ := by
    rw [run_scenB_eq]
    exact List.mem_singleton.mpr rfl
  exact ⟨hpos, hmem, C9_pnl_exact_at_threshold scenSeries [1] ⟨50, 3⟩ tradeSL hpos hmem⟩

/-- Claim C10: on a series with ascending timestamps, every emitted trade
exits at or after its entry, whatever the outcome. -/
theorem C10_exit_not_before_entry (df : List Bar) (ts : List Nat) (p : ExitParams) (tr : Trade)
    (hsort : df.Pairwise (fun a c => a.timestamp ≤ c.timestamp))
    (hmem : tr ∈ run df ts p) :
    tr.entryTimestamp ≤ tr.exitTimestamp := by
  obtain ⟨t, htmem, hsim⟩ := (mem_run_iff df ts p tr).mp hmem
  obtain ⟨ebar, hfind, hts, hent, hpnl, hcases⟩ := simulateEntry_spec df p t tr hsim
  rcases hcases with ⟨_, _, b, hbmem, hbts⟩ | ⟨_, _, b, hbmem, hbts⟩ | ⟨_, lb, hlast, _, hxts⟩
  · have hfilter := (List.mem_filter.mp hbmem).2
    have hle : t ≤ b.timestamp := of_decide_eq_true hfilter
    rw [hts, ← hbts]
    exact hle
  · have hfilter := (List.mem_filter.mp hbmem).2
    have hle : t ≤ b.timestamp := of_decide_eq_true hfilter
    rw [hts, ← hbts]
    exact hle
  · have hemem : ebar ∈ df := priceAt_mem df t ebar hfind
    have hets : ebar.timestamp = t := priceAt_timestamp df t ebar hfind
    have hle : ebar.timestamp ≤ lb.timestamp :=
      timestamp_le_of_getLast df lb ebar hsort hlast hemem
    rw [hts, hxts, ← hets]
    exact hle

/-- Witness for C10 at Scenario B: the StopLoss trade enters and exits at
timestamp 1. -/
theorem C10_exit_not_before_entry_witness :
    scenSeries.Pairwise (fun a c => a.timestamp ≤ c.timestamp) ∧
    tradeSL ∈ run scenSeries [1] ⟨50, 3⟩ ∧
    tradeSL.entryTimestamp ≤ tradeSL.exitTimestamp := by
  have hsort : scenSeries.Pairwise (fun a c => a.timestamp ≤ c.timestamp) := by
    norm_num [scenSeries, List.pairwise_cons, scenBar1, scenBar2, scenBar3]
  have hmem : tradeSL ∈ run scenSeries [1] ⟨50, 3⟩ := by
    rw [run_scenB_eq]
    exact List.mem_singleton.mpr rfl
  exact ⟨hsort, hmem,
    C10_exit_not_before_entry scenSeries [1] ⟨50, 3⟩ tradeSL hsort hmem⟩
